import Mathlib

/-!
Shallow embedding of the MyVocab review-state engine: the word record
store (`addWord`, `updateWordContent`), the review outcome engine
(`incrementCorrectCount`, `incrementWrongCount`), the daily streak
tracker (`updateStreak`), and the flashcard session builder
(`filterWords`, `startSession`, `resumableSession`).  Timestamps are
modelled as natural numbers (milliseconds), calendar dates as strings,
and the random source of the Fisher-Yates shuffle as an injectable
function from loop index to a natural number.
-/

namespace MyVocab

/-- Mastery status of a word (`Word['status']` in the source). -/
inductive Status
  | new
  | known
  | problem
deriving DecidableEq, Repr

/-- A vocabulary entry, after `normalizeWord`: the fields of the `Word`
type that the review engine reads and writes.  `createdAt` and
`lastReviewedAt` are epoch milliseconds. -/
structure Word where
  id : String
  english : String
  arabicMeanings : List String
  exampleSentences : List String
  status : Status
  correctCount : Nat
  wrongCount : Nat
  streak : Nat
  createdAt : Nat
  lastReviewedAt : Option Nat
deriving DecidableEq, Repr

/-- `incrementWrongCount` from the db module, as the pure update it
performs on the fetched word (`db.words.update` payload applied to the
record); `now` is the `new Date()` timestamp. -/
def incrementWrongCount (now : Nat) (w : Word) : Word :=
  let newWrong := w.wrongCount + 1
  let newCorrect := w.correctCount
  let sp : Status × Nat :=
    if w.status = Status.new then (Status.problem, 0)
    else if w.status = Status.problem then (Status.problem, 0)
    else (Status.problem, 0)
  { w with
    wrongCount := newWrong
    correctCount := newCorrect
    status := sp.1
    streak := sp.2
    lastReviewedAt := some now }

/-- `incrementCorrectCount` from the db module, as the pure update it
performs on the fetched word.  `word.streak || 0` is just `w.streak`
for a natural number field. -/
def incrementCorrectCount (now : Nat) (w : Word) : Word :=
  let newCorrect := w.correctCount + 1
  let newWrong := w.wrongCount
  let sp : Status × Nat :=
    if w.status = Status.new then (Status.known, 0)
    else if w.status = Status.problem then
      let currentStreak := w.streak
      let newStreak := currentStreak + 1
      if newStreak ≥ 3 then (Status.known, 0) else (Status.problem, newStreak)
    else (Status.known, 0)
  { w with
    correctCount := newCorrect
    wrongCount := newWrong
    status := sp.1
    streak := sp.2
    lastReviewedAt := some now }

/-- The two review outcomes a card can resolve with. -/
inductive ReviewEvent
  | correct
  | wrong
deriving DecidableEq, Repr

/-- Dispatch a review outcome to the corresponding counter update. -/
def applyEvent (now : Nat) : ReviewEvent → Word → Word
  | ReviewEvent.correct => incrementCorrectCount now
  | ReviewEvent.wrong => incrementWrongCount now

/-- A whole sequence of review outcomes applied in order. -/
def applyEvents (now : Nat) (es : List ReviewEvent) (w : Word) : Word :=
  es.foldl (fun acc e => applyEvent now e acc) w

/-- Modelled from the spec: the transition table of section 4.2,
`(current status, event, current streak) ↦ (next status, next streak)`,
row by row, used to compare the code against the spec. -/
def specTransition : Status → ReviewEvent → Nat → Status × Nat
  | Status.new, ReviewEvent.correct, _ => (Status.known, 0)
  | Status.new, ReviewEvent.wrong, _ => (Status.problem, 0)
  | Status.known, ReviewEvent.correct, _ => (Status.known, 0)
  | Status.known, ReviewEvent.wrong, _ => (Status.problem, 0)
  | Status.problem, ReviewEvent.wrong, _ => (Status.problem, 0)
  | Status.problem, ReviewEvent.correct, streak =>
    if streak + 1 ≥ 3 then (Status.known, 0) else (Status.problem, streak + 1)

lemma applyEvent_counters (now : Nat) (e : ReviewEvent) (w : Word) :
    (applyEvent now e w).correctCount + (applyEvent now e w).wrongCount
      = w.correctCount + w.wrongCount + 1 ∧
    w.correctCount ≤ (applyEvent now e w).correctCount ∧
    w.wrongCount ≤ (applyEvent now e w).wrongCount := by
  cases e <;>
    simp only [applyEvent, incrementCorrectCount, incrementWrongCount] <;>
    omega

lemma applyEvents_counters (now : Nat) (es : List ReviewEvent) (w : Word) :
    (applyEvents now es w).correctCount + (applyEvents now es w).wrongCount
      = w.correctCount + w.wrongCount + es.length ∧
    w.correctCount ≤ (applyEvents now es w).correctCount ∧
    w.wrongCount ≤ (applyEvents now es w).wrongCount := by
  induction es generalizing w with
  | nil => simp [applyEvents]
  | cons e es ih =>
    have hstep := applyEvent_counters now e w
    have htail := ih (applyEvent now e w)
    simp only [applyEvents, List.foldl_cons, List.length_cons] at *
    omega

/-- C1: every `(status, event)` pair transitions exactly as the table of
section 4.2 tabulates: the status and streak computed by
`incrementCorrectCount` / `incrementWrongCount` coincide with
`specTransition` on every word. -/
theorem transition_table_matches_spec (now : Nat) (w : Word) (e : ReviewEvent) :
    ((applyEvent now e w).status, (applyEvent now e w).streak)
      = specTransition w.status e w.streak := by
  cases e <;> cases hs : w.status <;>
    simp [applyEvent, incrementCorrectCount, incrementWrongCount, specTransition, hs]

/-- C7: each review event increments exactly the counter matching the
event by one, preserves the other counter verbatim and sets
`lastReviewedAt`; over any sequence of events the counter sum grows by
exactly the number of events and neither counter ever decreases. -/
theorem review_counter_frame (now : Nat) (w : Word) (es : List ReviewEvent) :
    (incrementCorrectCount now w).correctCount = w.correctCount + 1 ∧
    (incrementCorrectCount now w).wrongCount = w.wrongCount ∧
    (incrementWrongCount now w).wrongCount = w.wrongCount + 1 ∧
    (incrementWrongCount now w).correctCount = w.correctCount ∧
    (incrementCorrectCount now w).lastReviewedAt = some now ∧
    (incrementWrongCount now w).lastReviewedAt = some now ∧
    (applyEvents now es w).correctCount + (applyEvents now es w).wrongCount
      = w.correctCount + w.wrongCount + es.length ∧
    w.correctCount ≤ (applyEvents now es w).correctCount ∧
    w.wrongCount ≤ (applyEvents now es w).wrongCount := by
  refine ⟨rfl, rfl, rfl, rfl, rfl, rfl, ?_, ?_, ?_⟩ <;>
    have h := applyEvents_counters now es w <;> omega

/-- C8: a review event applied to a word whose streak is at most 3 and
which has streak 0 whenever known, yields a word whose streak is again
at most 3 and which has streak 0 whenever its status is known or new. -/
theorem review_preserves_invariant (now : Nat) (w : Word) (e : ReviewEvent)
    (hstreak : w.streak ≤ 3) (hknown : w.status = Status.known → w.streak = 0) :
    (applyEvent now e w).streak ≤ 3 ∧
    ((applyEvent now e w).status = Status.known ∨ (applyEvent now e w).status = Status.new →
      (applyEvent now e w).streak = 0) := by
  cases e <;> cases hs : w.status <;>
    simp [applyEvent, incrementCorrectCount, incrementWrongCount, hs]
  split <;> simp <;> omega

/-- Witness for C8: the invariant theorem applied to a concrete problem
word with streak 2 answered correctly. -/
theorem review_preserves_invariant_witness :
    (applyEvent 5 ReviewEvent.correct
        ⟨"w1", "cat", ["m"], ["s"], Status.problem, 4, 2, 2, 0, none⟩).streak ≤ 3 ∧
    ((applyEvent 5 ReviewEvent.correct
        ⟨"w1", "cat", ["m"], ["s"], Status.problem, 4, 2, 2, 0, none⟩).status = Status.known ∨
      (applyEvent 5 ReviewEvent.correct
        ⟨"w1", "cat", ["m"], ["s"], Status.problem, 4, 2, 2, 0, none⟩).status = Status.new →
      (applyEvent 5 ReviewEvent.correct
        ⟨"w1", "cat", ["m"], ["s"], Status.problem, 4, 2, 2, 0, none⟩).streak = 0) :=
  review_preserves_invariant 5
    ⟨"w1", "cat", ["m"], ["s"], Status.problem, 4, 2, 2, 0, none⟩
    ReviewEvent.correct (by decide) (by decide)

/-- The singleton streak record (`StreakData` in the source, without the
constant `id` key). Dates are YYYY-MM-DD strings. -/
structure StreakData where
  currentStreak : Nat
  longestStreak : Nat
  lastActivityDate : String
  reviewsToday : Nat
  reviewsDate : String
deriving DecidableEq, Repr

/-- `incrementDailyReviewCount` from the db module: the
`dailyReviewCounts` table is modelled as a total count function from
date strings (absent rows count 0, matching `create with count=1`). -/
def incrementDailyReviewCount (date : String) (daily : String → Nat) : String → Nat :=
  fun d => if d = date then daily d + 1 else daily d

/-- `updateStreak` from the db module as a pure update of the singleton:
`today` and `yesterday` are the date strings the source derives from the
clock (`new Date().toISOString().split('T')[0]` and the same for the
previous day). -/
def updateStreak (today yesterday : String) (s : StreakData) : StreakData :=
  let rd : Nat × String :=
    if s.reviewsDate ≠ today then (0, today) else (s.reviewsToday, s.reviewsDate)
  let reviewsToday := rd.1 + 1
  if reviewsToday = 20 then
    let newCurrentStreak :=
      if s.lastActivityDate = yesterday then s.currentStreak + 1 else 1
    let newLongestStreak := max s.longestStreak newCurrentStreak
    { s with
      currentStreak := newCurrentStreak
      longestStreak := newLongestStreak
      lastActivityDate := today
      reviewsToday := reviewsToday
      reviewsDate := rd.2 }
  else
    { s with reviewsToday := reviewsToday, reviewsDate := rd.2 }

/-- The running review count for `today` after one more review: the
stored count if `reviewsDate` is already today (else 0), plus one. -/
def postReviewCount (today : String) (s : StreakData) : Nat :=
  (if s.reviewsDate ≠ today then 0 else s.reviewsToday) + 1

/-- C2: the daily streak is updated exactly on the review whose running
count for the day reaches 20: then `currentStreak` becomes the old value
plus one if `lastActivityDate` is yesterday and 1 otherwise,
`longestStreak` becomes the max of its old value and the new
`currentStreak`, and `lastActivityDate` becomes today; on every other
review the three streak fields are untouched and only `reviewsToday`
(set to the running count) and the daily count for today change. -/
theorem streak_quota_update (today yesterday : String) (s : StreakData)
    (daily : String → Nat) (d : String) :
    (updateStreak today yesterday s).reviewsToday = postReviewCount today s ∧
    (postReviewCount today s = 20 →
      (updateStreak today yesterday s).currentStreak
          = (if s.lastActivityDate = yesterday then s.currentStreak + 1 else 1) ∧
      (updateStreak today yesterday s).longestStreak
          = max s.longestStreak (updateStreak today yesterday s).currentStreak ∧
      (updateStreak today yesterday s).lastActivityDate = today) ∧
    (postReviewCount today s ≠ 20 →
      (updateStreak today yesterday s).currentStreak = s.currentStreak ∧
      (updateStreak today yesterday s).longestStreak = s.longestStreak ∧
      (updateStreak today yesterday s).lastActivityDate = s.lastActivityDate) ∧
    incrementDailyReviewCount today daily today = daily today + 1 ∧
    (d ≠ today → incrementDailyReviewCount today daily d = daily d) := by
  unfold updateStreak postReviewCount incrementDailyReviewCount
  by_cases hd : s.reviewsDate = today <;>
    simp [hd] <;>
    split <;> simp_all

/-- Witness for C2: a concrete 20th review on a day following a quota
day increments the current streak from 2 to 3 and stamps today, and a
concrete 5th review leaves the streak fields alone. -/
theorem streak_quota_update_witness :
    (updateStreak "2024-01-02" "2024-01-01"
        ⟨2, 2, "2024-01-01", 19, "2024-01-02"⟩).currentStreak = 3 ∧
    (updateStreak "2024-01-02" "2024-01-01"
        ⟨2, 2, "2024-01-01", 19, "2024-01-02"⟩).lastActivityDate = "2024-01-02" ∧
    (updateStreak "2024-01-02" "2024-01-01"
        ⟨2, 5, "2024-01-01", 4, "2024-01-02"⟩).currentStreak = 2 ∧
    (updateStreak "2024-01-02" "2024-01-01"
        ⟨2, 5, "2024-01-01", 4, "2024-01-02"⟩).lastActivityDate = "2024-01-01" := by
  have h20 := (streak_quota_update "2024-01-02" "2024-01-01"
    ⟨2, 2, "2024-01-01", 19, "2024-01-02"⟩ (fun _ => 0) "x").2.1 (by decide)
  have h5 := (streak_quota_update "2024-01-02" "2024-01-01"
    ⟨2, 5, "2024-01-01", 4, "2024-01-02"⟩ (fun _ => 0) "x").2.2.1 (by decide)
  refine ⟨h20.1.trans (by decide), h20.2.2, h5.1.trans (by decide), h5.2.2.trans (by decide)⟩

/-- C10: `updateStreak` never decreases `longestStreak`, and it
preserves the invariant that `longestStreak` dominates
`currentStreak`. -/
theorem updateStreak_longest_monotone (today yesterday : String) (s : StreakData)
    (h : s.currentStreak ≤ s.longestStreak) :
    s.longestStreak ≤ (updateStreak today yesterday s).longestStreak ∧
    (updateStreak today yesterday s).currentStreak
      ≤ (updateStreak today yesterday s).longestStreak := by
  unfold updateStreak
  by_cases hd : s.reviewsDate = today <;>
    simp [hd] <;>
    first
      | omega
      | (split <;> simp_all [le_max_iff] <;> first | omega | (split <;> omega))

/-- Witness for C10: the monotonicity theorem applied to a concrete
quota-reaching review that raises the current streak past the previous
longest streak. -/
theorem updateStreak_longest_monotone_witness :
    (3 : Nat) ≤ (updateStreak "2024-01-02" "2024-01-01"
        ⟨3, 3, "2024-01-01", 19, "2024-01-02"⟩).longestStreak ∧
    (updateStreak "2024-01-02" "2024-01-01"
        ⟨3, 3, "2024-01-01", 19, "2024-01-02"⟩).currentStreak
      ≤ (updateStreak "2024-01-02" "2024-01-01"
        ⟨3, 3, "2024-01-01", 19, "2024-01-02"⟩).longestStreak :=
  updateStreak_longest_monotone "2024-01-02" "2024-01-01"
    ⟨3, 3, "2024-01-01", 19, "2024-01-02"⟩ (by decide)

/-- `toLowerCase` of a string, modelled character-wise on the string's
data (the case-folding behind `equalsIgnoreCase` in the source). -/
def strToLower (s : String) : List Char :=
  s.data.map Char.toLower

/-- `String.prototype.trim`, modelled on the string's data: drop
whitespace from both ends. -/
def strTrim (s : String) : String :=
  ⟨((s.data.dropWhile Char.isWhitespace).reverse.dropWhile Char.isWhitespace).reverse⟩

/-- `wordExists` from the db module: case-insensitive match of
`english` against the stored words. -/
def wordExists (store : List Word) (english : String) : Bool :=
  store.any (fun w => strToLower w.english == strToLower english)

/-- The result shape of `addWord`: `{ id: string | null; isDuplicate: boolean }`. -/
structure AddResult where
  id : Option String
  isDuplicate : Bool
deriving DecidableEq, Repr

/-- The draft accepted by `addWord` (a `Word` without the fields the
store fills in). -/
structure WordDraft where
  english : String
  arabicMeanings : List String
  exampleSentences : List String
deriving DecidableEq, Repr

/-- `addWord` from the db module: duplicate guard, then insertion with
`status=new`, zeroed counters and streak, normalized sentences;
`freshId` is the `crypto.randomUUID()` value and `now` the `new Date()`
timestamp. -/
def addWord (store : List Word) (draft : WordDraft) (freshId : String) (now : Nat) :
    AddResult × List Word :=
  if wordExists store draft.english then
    ({ id := none, isDuplicate := true }, store)
  else
    let sentences := (draft.exampleSentences.filter (fun s => s != "")).take 3
    let nw : Word :=
      { id := freshId
        english := draft.english
        arabicMeanings := draft.arabicMeanings
        exampleSentences := if sentences.isEmpty then [""] else sentences
        status := Status.new
        correctCount := 0
        wrongCount := 0
        streak := 0
        createdAt := now
        lastReviewedAt := none }
    ({ id := some freshId, isDuplicate := false }, store ++ [nw])

lemma wordExists_append_true (store : List Word) (nw : Word) (e : String)
    (h : strToLower nw.english = strToLower e) :
    wordExists (store ++ [nw]) e = true := by
  simp [wordExists, h]

lemma addWord_of_exists (store : List Word) (draft : WordDraft) (freshId : String)
    (now : Nat) (h : wordExists store draft.english = true) :
    addWord store draft freshId now = ({ id := none, isDuplicate := true }, store) := by
  simp [addWord, h]

/-- C6: creating a word whose english already exists case-insensitively
returns a duplicate indication with no id and leaves the store
untouched; a non-duplicate create appends exactly one word with the
fresh id, status `new`, zero counters and streak and the creation
timestamp, and a second create of a case-variant of the same english is
rejected as a duplicate, so two creates add exactly one stored word. -/
theorem addWord_duplicate_guard (store : List Word) (draft draft' : WordDraft)
    (id1 id2 : String) (n1 n2 : Nat)
    (hlower : strToLower draft'.english = strToLower draft.english) :
    (wordExists store draft.english = true →
      addWord store draft id1 n1 = ({ id := none, isDuplicate := true }, store)) ∧
    (wordExists store draft.english = false →
      (addWord store draft id1 n1).1 = { id := some id1, isDuplicate := false } ∧
      (∃ nw : Word,
        (addWord store draft id1 n1).2 = store ++ [nw] ∧
        nw.id = id1 ∧ nw.english = draft.english ∧ nw.status = Status.new ∧
        nw.correctCount = 0 ∧ nw.wrongCount = 0 ∧ nw.streak = 0 ∧ nw.createdAt = n1) ∧
      addWord (addWord store draft id1 n1).2 draft' id2 n2
        = ({ id := none, isDuplicate := true }, (addWord store draft id1 n1).2) ∧
      (addWord (addWord store draft id1 n1).2 draft' id2 n2).2.length
        = store.length + 1) := by
  constructor
  · intro hdup
    exact addWord_of_exists store draft id1 n1 hdup
  · intro hnew
    have h1 : addWord store draft id1 n1
        = ({ id := some id1, isDuplicate := false },
           store ++ [{ id := id1
                       english := draft.english
                       arabicMeanings := draft.arabicMeanings
                       exampleSentences :=
                         if ((draft.exampleSentences.filter (fun s => s != "")).take 3).isEmpty
                         then [""]
                         else (draft.exampleSentences.filter (fun s => s != "")).take 3
                       status := Status.new
                       correctCount := 0
                       wrongCount := 0
                       streak := 0
                       createdAt := n1
                       lastReviewedAt := none }]) := by
      simp [addWord, hnew]
    have hdup2 : wordExists (addWord store draft id1 n1).2 draft'.english = true := by
      rw [h1]
      exact wordExists_append_true _ _ _ hlower.symm
    have h2 : addWord (addWord store draft id1 n1).2 draft' id2 n2
        = ({ id := none, isDuplicate := true }, (addWord store draft id1 n1).2) :=
      addWord_of_exists _ _ _ _ hdup2
    refine ⟨by rw [h1], ⟨_, by rw [h1], rfl, rfl, rfl, rfl, rfl, rfl, rfl⟩, h2, ?_⟩
    rw [h2, h1]
    simp

/-- Witness for C6: adding "Cat" to the empty store succeeds and a
subsequent "cat" is reported as a duplicate, leaving one stored word. -/
theorem addWord_duplicate_guard_witness :
    (addWord [] ⟨"Cat", ["m"], ["s"]⟩ "id1" 7).1
        = { id := some "id1", isDuplicate := false } ∧
    addWord (addWord [] ⟨"Cat", ["m"], ["s"]⟩ "id1" 7).2 ⟨"cat", ["m"], []⟩ "id2" 9
        = ({ id := none, isDuplicate := true },
           (addWord [] ⟨"Cat", ["m"], ["s"]⟩ "id1" 7).2) ∧
    (addWord (addWord [] ⟨"Cat", ["m"], ["s"]⟩ "id1" 7).2 ⟨"cat", ["m"], []⟩ "id2" 9).2.length
        = 1 := by
  have h := (addWord_duplicate_guard [] ⟨"Cat", ["m"], ["s"]⟩ ⟨"cat", ["m"], []⟩
    "id1" "id2" 7 9 (by decide)).2 (by decide)
  exact ⟨h.1, h.2.2.1, h.2.2.2⟩

/-- `updateWordContent` sentence normalization from the db module: keep
entries that are truthy and have a truthy trim (entries themselves are
stored verbatim), cap at 3, fall back to `[""]` when nothing is left. -/
def normalizeUpdatedSentences (ss : List String) : List String :=
  let filtered := (ss.filter (fun s => s != "" && strTrim s != "")).take 3
  if filtered.isEmpty then [""] else filtered

/-- `updateWordContent` from the db module as a pure record update:
`none` models an absent field in the update payload. -/
def updateWordContent (w : Word) (arabicMeanings? : Option (List String))
    (exampleSentences? : Option (List String)) : Word :=
  { w with
    arabicMeanings :=
      match arabicMeanings? with
      | none => w.arabicMeanings
      | some ms => ms
    exampleSentences :=
      match exampleSentences? with
      | none => w.exampleSentences
      | some ss => normalizeUpdatedSentences ss }

/-- Modelled from the spec: "if sentences supplied, trims, drops empty,
caps at 3, falls back to [''] if the result is empty" — every kept
entry is stored in trimmed form. -/
def specNormalizeUpdatedSentences (ss : List String) : List String :=
  let trimmed := ((ss.map strTrim).filter (fun s => s != "")).take 3
  if trimmed.isEmpty then [""] else trimmed

/-- A concrete stored word used to evaluate the content update at a
specific input. -/
def sampleWord : Word :=
  { id := "w9"
    english := "run"
    arabicMeanings := ["m"]
    exampleSentences := ["old"]
    status := Status.problem
    correctCount := 2
    wrongCount := 1
    streak := 1
    createdAt := 0
    lastReviewedAt := none }

/-- Counterexample for C9: updating the sentences to `[" hi "]` stores
the entry verbatim with its surrounding whitespace, not in the trimmed
form the claim prescribes, so the stored list differs from the
trim-first normalization built from the claim's words. -/
theorem updateWordContent_no_trim_cex :
    (updateWordContent sampleWord none (some [" hi "])).exampleSentences = [" hi "] ∧
    specNormalizeUpdatedSentences [" hi "] = ["hi"] ∧
    (updateWordContent sampleWord none (some [" hi "])).exampleSentences
      ≠ specNormalizeUpdatedSentences [" hi "] := by
  refine ⟨by decide, by decide, by decide⟩

/-- C9 (amended): `updateWordContent` keeps supplied sentence entries
verbatim, dropping those that are empty or whitespace-only (empty after
trimming), caps the result at 3 entries, replaces an emptied list by
`[""]`, and leaves every unsupplied field unchanged. -/
theorem updateWordContent_normalizes (w : Word) (a? : Option (List String))
    (ms ss : List String) :
    (updateWordContent w a? (some ss)).exampleSentences.length ≤ 3 ∧
    (ss.filter (fun s => s != "" && strTrim s != "") = [] →
      (updateWordContent w a? (some ss)).exampleSentences = [""]) ∧
    (ss.filter (fun s => s != "" && strTrim s != "") ≠ [] →
      List.Sublist (updateWordContent w a? (some ss)).exampleSentences ss ∧
      ∀ s ∈ (updateWordContent w a? (some ss)).exampleSentences,
        s ≠ "" ∧ strTrim s ≠ "") ∧
    (updateWordContent w a? none).exampleSentences = w.exampleSentences ∧
    (updateWordContent w none (some ss)).arabicMeanings = w.arabicMeanings ∧
    (updateWordContent w (some ms) (some ss)).arabicMeanings = ms ∧
    (updateWordContent w a? (some ss)).status = w.status ∧
    (updateWordContent w a? (some ss)).correctCount = w.correctCount ∧
    (updateWordContent w a? (some ss)).wrongCount = w.wrongCount ∧
    (updateWordContent w a? (some ss)).streak = w.streak ∧
    (updateWordContent w a? (some ss)).english = w.english ∧
    (updateWordContent w a? (some ss)).id = w.id := by
  have hlen : (updateWordContent w a? (some ss)).exampleSentences.length ≤ 3 := by
    simp only [updateWordContent, normalizeUpdatedSentences]
    split
    · simp
    · exact le_trans (List.length_take_le 3 _) (le_refl 3)
  refine ⟨hlen, ?_, ?_, rfl, ?_, ?_, ?_, ?_, ?_, ?_, ?_, ?_⟩
  · intro hempty
    simp [updateWordContent, normalizeUpdatedSentences, hempty]
  · intro hne
    have htake : (ss.filter (fun s => s != "" && strTrim s != "")).take 3 ≠ [] := by
      simp only [ne_eq, List.take_eq_nil_iff]
      push_neg
      exact ⟨by omega, hne⟩
    have hres : (updateWordContent w a? (some ss)).exampleSentences
        = (ss.filter (fun s => s != "" && strTrim s != "")).take 3 := by
      simp [updateWordContent, normalizeUpdatedSentences, List.isEmpty_iff, htake]
    rw [hres]
    refine ⟨(List.take_sublist 3 _).trans (List.filter_sublist ss), ?_⟩
    intro s hs
    have hmemf := List.mem_of_mem_take hs
    have := (List.mem_filter.mp hmemf).2
    simp only [Bool.and_eq_true, bne_iff_ne, ne_eq] at this
    exact this
  all_goals cases a? <;> rfl

/-- Witness for C9: the amended theorem evaluated on a concrete update
containing a whitespace-only entry and four useful entries. -/
theorem updateWordContent_normalizes_witness :
    List.Sublist
      (updateWordContent sampleWord none (some ["a", " ", "b", "c", "d"])).exampleSentences
      ["a", " ", "b", "c", "d"] ∧
    (∀ s ∈ (updateWordContent sampleWord none (some ["a", " ", "b", "c", "d"])).exampleSentences,
      s ≠ "" ∧ strTrim s ≠ "") ∧
    (updateWordContent sampleWord none (some ["a", " ", "b", "c", "d"])).exampleSentences.length
      ≤ 3 := by
  have h := updateWordContent_normalizes sampleWord none ["m"] ["a", " ", "b", "c", "d"]
  have h2 := h.2.2.1 (by decide)
  exact ⟨h2.1, h2.2, h.1⟩

/-- The progress filter options of the flashcard session screen
(`'all' | 'moderate' | 'hard' | 'very hard'`). -/
inductive ProgressFilter
  | all
  | moderate
  | hard
  | veryHard
deriving DecidableEq, Repr

/-- `calculateLearningPercentage` from Flashcards:
`Math.round((correctCount / total) * 100)` with 0 for an unreviewed
word, in exact arithmetic: rounding half up,
`⌊(100·c/t) + 1/2⌋ = (200·c + t) / (2·t)` in natural division. -/
def calculateLearningPercentage (correctCount wrongCount : Nat) : Nat :=
  let total := correctCount + wrongCount
  if total = 0 then 0 else (200 * correctCount + total) / (2 * total)

/-- The per-word test of `filterByProgress`: the switch over the
progress filter applied to the word's rounded percentage. -/
def progressBucketMatches (pf : ProgressFilter) (w : Word) : Bool :=
  let progress := calculateLearningPercentage w.correctCount w.wrongCount
  match pf with
  | ProgressFilter.all => true
  | ProgressFilter.moderate => 66 ≤ progress && progress < 90
  | ProgressFilter.hard => 33 ≤ progress && progress < 66
  | ProgressFilter.veryHard => progress < 33

/-- `filterByProgress` from Flashcards: identity for `'all'`, otherwise
keep the words whose rounded percentage falls in the chosen bucket. -/
def filterByProgress (words : List Word) (pf : ProgressFilter) : List Word :=
  match pf with
  | ProgressFilter.all => words
  | _ => words.filter (progressBucketMatches pf)

/-- Modelled from the spec: the derived progress metric
`correctCount / (correctCount + wrongCount)` as an exact rational,
0 when there are no reviews yet. -/
def specProgress (c w : Nat) : ℚ :=
  if c + w = 0 then 0 else (c : ℚ) / ((c : ℚ) + (w : ℚ))

lemma le_percent_iff (c n k : Nat) (hk : 1 ≤ k) :
    k ≤ calculateLearningPercentage c n ↔
      (2 * (k : ℚ) - 1) / 200 ≤ specProgress c n := by
  unfold calculateLearningPercentage specProgress
  have hk' : (1 : ℚ) ≤ (k : ℚ) := by exact_mod_cast hk
  by_cases ht : c + n = 0
  · simp only [ht, if_pos, Nat.cast_ofNat, ite_true]
    constructor
    · intro h
      omega
    · intro h
      rw [div_le_iff (by norm_num : (0:ℚ) < 200)] at h
      linarith
  · have ht' : 0 < c + n := Nat.pos_of_ne_zero ht
    have htq : (0 : ℚ) < (c : ℚ) + (n : ℚ) := by
      exact_mod_cast ht'
    simp only [ht, ite_false]
    rw [Nat.le_div_iff_mul_le (by omega : 0 < 2 * (c + n)),
      div_le_div_iff (by norm_num : (0:ℚ) < 200) htq]
    constructor
    · intro h
      have hq : (k : ℚ) * (2 * ((c : ℚ) + (n : ℚ))) ≤ 200 * (c : ℚ) + ((c : ℚ) + (n : ℚ)) := by
        exact_mod_cast h
      ring_nf at hq ⊢
      linarith
    · intro h
      have hq : (k : ℚ) * (2 * ((c : ℚ) + (n : ℚ))) ≤ 200 * (c : ℚ) + ((c : ℚ) + (n : ℚ)) := by
        ring_nf at h ⊢
        linarith
      exact_mod_cast hq

lemma percent_lt_iff (c n k : Nat) (hk : 1 ≤ k) :
    calculateLearningPercentage c n < k ↔
      specProgress c n < (2 * (k : ℚ) - 1) / 200 := by
  unfold calculateLearningPercentage specProgress
  have hk' : (1 : ℚ) ≤ (k : ℚ) := by exact_mod_cast hk
  by_cases ht : c + n = 0
  · simp only [ht, if_pos, ite_true]
    constructor
    · intro _
      rw [lt_div_iff (by norm_num : (0:ℚ) < 200)]
      linarith
    · intro _
      omega
  · have ht' : 0 < c + n := Nat.pos_of_ne_zero ht
    have htq : (0 : ℚ) < (c : ℚ) + (n : ℚ) := by
      exact_mod_cast ht'
    simp only [ht, ite_false]
    rw [Nat.div_lt_iff_lt_mul (by omega : 0 < 2 * (c + n)),
      div_lt_div_iff htq (by norm_num : (0:ℚ) < 200)]
    constructor
    · intro h
      have hq : 200 * (c : ℚ) + ((c : ℚ) + (n : ℚ)) < (k : ℚ) * (2 * ((c : ℚ) + (n : ℚ))) := by
        exact_mod_cast h
      ring_nf at hq ⊢
      linarith
    · intro h
      have hq : 200 * (c : ℚ) + ((c : ℚ) + (n : ℚ)) < (k : ℚ) * (2 * ((c : ℚ) + (n : ℚ))) := by
        ring_nf at h ⊢
        linarith
      exact_mod_cast hq

/-- A word with 131 correct and 69 wrong reviews: its exact progress is
131/200 = 0.655 but its rounded percentage is 66. -/
def bucketWordCex : Word :=
  { sampleWord with correctCount := 131, wrongCount := 69 }

/-- A word with one correct and one wrong review (progress 1/2). -/
def bucketWordHalf : Word :=
  { sampleWord with correctCount := 1, wrongCount := 1 }

/-- Counterexample for C3: the word with 131 correct and 69 wrong
reviews has exact progress 131/200 = 0.655, which the claim places in
`hard` (it lies in [0.33, 0.66) and not in [0.66, 0.90)), yet the code
rounds the percentage to 66 and classifies the word as `moderate` and
not `hard`. -/
theorem progress_bucket_cex :
    progressBucketMatches ProgressFilter.moderate bucketWordCex = true ∧
    progressBucketMatches ProgressFilter.hard bucketWordCex = false ∧
    specProgress bucketWordCex.correctCount bucketWordCex.wrongCount = (131 : ℚ)/200 ∧
    ¬((66 : ℚ)/100 ≤ (131 : ℚ)/200 ∧ (131 : ℚ)/200 < (90 : ℚ)/100) ∧
    ((33 : ℚ)/100 ≤ (131 : ℚ)/200 ∧ (131 : ℚ)/200 < (66 : ℚ)/100) := by
  refine ⟨by decide, by decide, ?_, by norm_num, by norm_num⟩
  show specProgress 131 69 = (131 : ℚ)/200
  norm_num [specProgress]

/-- C3 (amended): the session filter classifies by the rounded
percentage `Math.round(100·progress)`, so membership is governed by the
half-percent-shifted exact bounds: `moderate` exactly when progress is
in [131/200, 179/200) (i.e. [0.655, 0.895)), `hard` exactly when in
[13/40, 131/200) (i.e. [0.325, 0.655)), `veryHard` exactly when below
13/40; the buckets are pairwise disjoint, every progress at least 0.90
falls in no bucket, an unreviewed word has percentage 0, and
`filterByProgress` keeps exactly the pool members whose bucket test
succeeds. -/
theorem progress_bucket_partition (w : Word) (ws : List Word) :
    (progressBucketMatches ProgressFilter.moderate w = true ↔
      (131 : ℚ)/200 ≤ specProgress w.correctCount w.wrongCount ∧
        specProgress w.correctCount w.wrongCount < (179 : ℚ)/200) ∧
    (progressBucketMatches ProgressFilter.hard w = true ↔
      (13 : ℚ)/40 ≤ specProgress w.correctCount w.wrongCount ∧
        specProgress w.correctCount w.wrongCount < (131 : ℚ)/200) ∧
    (progressBucketMatches ProgressFilter.veryHard w = true ↔
      specProgress w.correctCount w.wrongCount < (13 : ℚ)/40) ∧
    (¬(progressBucketMatches ProgressFilter.moderate w = true ∧
        progressBucketMatches ProgressFilter.hard w = true)) ∧
    (¬(progressBucketMatches ProgressFilter.moderate w = true ∧
        progressBucketMatches ProgressFilter.veryHard w = true)) ∧
    (¬(progressBucketMatches ProgressFilter.hard w = true ∧
        progressBucketMatches ProgressFilter.veryHard w = true)) ∧
    ((9 : ℚ)/10 ≤ specProgress w.correctCount w.wrongCount →
      progressBucketMatches ProgressFilter.moderate w = false ∧
      progressBucketMatches ProgressFilter.hard w = false ∧
      progressBucketMatches ProgressFilter.veryHard w = false) ∧
    calculateLearningPercentage 0 0 = 0 ∧
    (w ∈ filterByProgress ws ProgressFilter.moderate ↔
      w ∈ ws ∧ progressBucketMatches ProgressFilter.moderate w = true) ∧
    (w ∈ filterByProgress ws ProgressFilter.hard ↔
      w ∈ ws ∧ progressBucketMatches ProgressFilter.hard w = true) ∧
    (w ∈ filterByProgress ws ProgressFilter.veryHard ↔
      w ∈ ws ∧ progressBucketMatches ProgressFilter.veryHard w = true) := by
  have h66 := le_percent_iff w.correctCount w.wrongCount 66 (by norm_num)
  have h33 := le_percent_iff w.correctCount w.wrongCount 33 (by norm_num)
  have h90 := percent_lt_iff w.correctCount w.wrongCount 90 (by norm_num)
  have h66' := percent_lt_iff w.correctCount w.wrongCount 66 (by norm_num)
  have h33' := percent_lt_iff w.correctCount w.wrongCount 33 (by norm_num)
  norm_num at h66 h33 h90 h66' h33'
  have hm : progressBucketMatches ProgressFilter.moderate w = true ↔
      (66 ≤ calculateLearningPercentage w.correctCount w.wrongCount ∧
        calculateLearningPercentage w.correctCount w.wrongCount < 90) := by
    simp [progressBucketMatches]
  have hh : progressBucketMatches ProgressFilter.hard w = true ↔
      (33 ≤ calculateLearningPercentage w.correctCount w.wrongCount ∧
        calculateLearningPercentage w.correctCount w.wrongCount < 66) := by
    simp [progressBucketMatches]
  have hv : progressBucketMatches ProgressFilter.veryHard w = true ↔
      calculateLearningPercentage w.correctCount w.wrongCount < 33 := by
    simp [progressBucketMatches]
  refine ⟨hm.trans (and_congr h66 h90), hh.trans (and_congr h33 h66'),
    hv.trans h33', ?_, ?_, ?_, ?_, by simp [calculateLearningPercentage], ?_, ?_, ?_⟩
  · rw [hm, hh]
    omega
  · rw [hm, hv]
    omega
  · rw [hh, hv]
    omega
  · intro h9
    have hge : (179 : ℚ)/200 ≤ specProgress w.correctCount w.wrongCount := by linarith
    refine ⟨?_, ?_, ?_⟩ <;> rw [Bool.eq_false_iff] <;> intro hc
    · rw [hm, h66.and h90] at hc
      linarith [hc.2]
    · rw [hh, h33.and h66'] at hc
      linarith [hc.2]
    · rw [hv, h33'] at hc
      linarith
  · simp [filterByProgress, List.mem_filter]
  · simp [filterByProgress, List.mem_filter]
  · simp [filterByProgress, List.mem_filter]

/-- Witness for C3: the bucket characterization applied to the concrete
word with one correct and one wrong review, whose rounded percentage is
50, placing its exact progress 1/2 in the amended hard range. -/
theorem progress_bucket_partition_witness :
    (13 : ℚ)/40 ≤ specProgress 1 1 ∧ specProgress 1 1 < (131 : ℚ)/200 := by
  have h := (progress_bucket_partition bucketWordHalf []).2.1.mp (by decide)
  simpa [bucketWordHalf, sampleWord] using h

/-- The flashcard session filter options (`'all' | 'new' | 'problem' | 'date'`). -/
inductive FilterType
  | all
  | new
  | problem
  | date
deriving DecidableEq, Repr

/-- `filterWords` from Flashcards: status, progress and creation-date
filters; `now` and `startOfToday` are epoch milliseconds, a day is
86400000 ms. -/
def filterWords (words : List Word) (ft : FilterType) (dateRange : Nat)
    (pf : Option ProgressFilter) (now startOfToday : Nat) : List Word :=
  match ft with
  | FilterType.new => words.filter (fun w => w.status == Status.new)
  | FilterType.problem =>
    let problemWords := words.filter (fun w => w.status == Status.problem)
    match pf with
    | some p => filterByProgress problemWords p
    | none => problemWords
  | FilterType.all =>
    match pf with
    | some p => filterByProgress words p
    | none => words
  | FilterType.date =>
    let cutoff := if dateRange = 0 then startOfToday else now - dateRange * 86400000
    words.filter (fun w => cutoff ≤ w.createdAt)

/-- One iteration of the Fisher-Yates loop body: exchange positions `i`
and `j` (both in bounds in the source). -/
def swapL {α : Type} (l : List α) (i j : Nat) : List α :=
  match l[i]?, l[j]? with
  | some x, some y => (l.set i y).set j x
  | _, _ => l

/-- The Fisher-Yates loop `for (i = length-1; i > 0; i--)`: at index `i`
the source draws `j = Math.floor(Math.random() * (i + 1))`, modelled by
the injectable random source as `r i % (i + 1)`. -/
def fyLoop {α : Type} (r : Nat → Nat) : Nat → List α → List α
  | 0, l => l
  | i + 1, l => fyLoop r i (swapL l (i + 1) (r (i + 1) % (i + 2)))

/-- `shuffleArray` from Flashcards. -/
def shuffleArray {α : Type} (r : Nat → Nat) (l : List α) : List α :=
  fyLoop r (l.length - 1) l

lemma swapL_length {α : Type} (l : List α) (i j : Nat) :
    (swapL l i j).length = l.length := by
  unfold swapL
  split <;> simp

lemma swapL_mem {α : Type} (l : List α) (i j : Nat) (a : α) (h : a ∈ swapL l i j) :
    a ∈ l := by
  unfold swapL at h
  split at h
  case _ x y hx hy =>
    have hxl : x ∈ l := List.getElem?_mem hx
    have hyl : y ∈ l := List.getElem?_mem hy
    rcases List.mem_or_eq_of_mem_set h with h2 | h2
    · rcases List.mem_or_eq_of_mem_set h2 with h3 | h3
      · exact h3
      · exact h3 ▸ hyl
    · exact h2 ▸ hxl
  case _ => exact h

lemma fyLoop_length {α : Type} (r : Nat → Nat) (n : Nat) (l : List α) :
    (fyLoop r n l).length = l.length := by
  induction n generalizing l with
  | zero => rfl
  | succ i ih => rw [fyLoop, ih, swapL_length]

lemma fyLoop_mem {α : Type} (r : Nat → Nat) (n : Nat) (l : List α) (a : α)
    (h : a ∈ fyLoop r n l) : a ∈ l := by
  induction n generalizing l with
  | zero => exact h
  | succ i ih =>
    rw [fyLoop] at h
    exact swapL_mem _ _ _ _ (ih _ h)

lemma shuffleArray_length {α : Type} (r : Nat → Nat) (l : List α) :
    (shuffleArray r l).length = l.length :=
  fyLoop_length r (l.length - 1) l

lemma shuffleArray_mem {α : Type} (r : Nat → Nat) (l : List α) (a : α)
    (h : a ∈ shuffleArray r l) : a ∈ l :=
  fyLoop_mem r (l.length - 1) l a h

/-- `startSession` from Flashcards, as the session list it builds:
filter, shuffle, take `min(requested, filtered.length)`; when the
filter matches nothing, no session is started (`none`).
`Math.max(1, Number(sessionSize) || 20)` reads an invalid or zero
stored size as 20. -/
def startSession (words : List Word) (ft : FilterType) (dateRange : Nat)
    (pf : Option ProgressFilter) (now startOfToday : Nat) (sessionSize : Nat)
    (r : Nat → Nat) : Option (List Word) :=
  let filtered := filterWords words ft dateRange pf now startOfToday
  if 0 < filtered.length then
    let requested := max 1 (if sessionSize = 0 then 20 else sessionSize)
    let takeCount := min requested filtered.length
    some ((shuffleArray r filtered).take takeCount)
  else
    none

/-- C4: for a requested size of at least 1, a started session holds
exactly `min(N, filtered.length)` words, all drawn from the filter
result; when the filter matches nothing the session is not started and
no error occurs. -/
theorem startSession_size_clamp (words : List Word) (ft : FilterType) (dateRange : Nat)
    (pf : Option ProgressFilter) (now startOfToday sessionSize : Nat) (r : Nat → Nat)
    (hN : 1 ≤ sessionSize) :
    (filterWords words ft dateRange pf now startOfToday = [] →
      startSession words ft dateRange pf now startOfToday sessionSize r = none) ∧
    (filterWords words ft dateRange pf now startOfToday ≠ [] →
      ∃ s, startSession words ft dateRange pf now startOfToday sessionSize r = some s ∧
        s.length
          = min sessionSize (filterWords words ft dateRange pf now startOfToday).length ∧
        ∀ x ∈ s, x ∈ filterWords words ft dateRange pf now startOfToday) := by
  constructor
  · intro hempty
    simp [startSession, hempty]
  · intro hne
    have hlen : 0 < (filterWords words ft dateRange pf now startOfToday).length :=
      List.length_pos.mpr hne
    have hsize : (if sessionSize = 0 then 20 else sessionSize) = sessionSize := by
      have : sessionSize ≠ 0 := by omega
      simp [this]
    refine ⟨(shuffleArray r (filterWords words ft dateRange pf now startOfToday)).take
      (min sessionSize (filterWords words ft dateRange pf now startOfToday).length),
      ?_, ?_, ?_⟩
    · simp only [startSession, hlen, if_pos, hsize]
      rw [max_eq_right hN]
    · rw [List.length_take, shuffleArray_length]
      omega
    · intro x hx
      exact shuffleArray_mem r _ x (List.mem_of_mem_take hx)

/-- Witness for C4: starting a session over a one-word pool with the
problem filter and requested size 1 yields a session. -/
theorem startSession_size_clamp_witness :
    (startSession [sampleWord] FilterType.problem 0 none 0 0 1 (fun _ => 0)).isSome
        = true ∧
    filterWords [sampleWord] FilterType.problem 0 none 0 0 = [sampleWord] := by
  obtain ⟨s, hs, -, -⟩ :=
    (startSession_size_clamp [sampleWord] FilterType.problem 0 none 0 0 1 (fun _ => 0)
      (by decide)).2 (by decide)
  exact ⟨by rw [hs]; rfl, by decide⟩

/-- The persisted in-progress snapshot
(`SavedSession` in the session-storage module). -/
structure SavedSession where
  wordIds : List String
  currentIndex : Int
  filterType : FilterType
  dateRange : Nat
  savedAt : String
  knownCount : Nat
  problemCount : Nat
deriving DecidableEq, Repr

/-- Lookup in `new Map(words.map(w => [w.id, w]))`: with duplicate ids
the later insertion wins, hence the search over the reversed list. -/
def wordMapGet (words : List Word) (id : String) : Option Word :=
  words.reverse.find? (fun w => w.id == id)

/-- The validated resumable session offered on the options screen. -/
structure ResumableSession where
  words : List Word
  currentIndex : Nat
  cardsLeft : Nat
  knownCount : Nat
  problemCount : Nat
deriving DecidableEq, Repr

/-- `resumableSession` from Flashcards: reconstruct the saved word-id
list against the live pool, dropping vanished ids, clamping the cursor
with `Math.min(Math.max(0, saved.currentIndex), ordered.length - 1)`. -/
def resumableSession (saved : Option SavedSession) (words : List Word) :
    Option ResumableSession :=
  match saved with
  | none => none
  | some s =>
    if s.wordIds.isEmpty then none
    else
      let ordered := s.wordIds.filterMap (wordMapGet words)
      if ordered.isEmpty then none
      else
        let index := min (max 0 s.currentIndex) ((ordered.length : Int) - 1)
        some { words := ordered
               currentIndex := index.toNat
               cardsLeft := ordered.length - index.toNat
               knownCount := s.knownCount
               problemCount := s.problemCount }

lemma length_filterMap_add_countP {α β : Type} (f : α → Option β) (l : List α) :
    (l.filterMap f).length + l.countP (fun a => (f a).isNone) = l.length := by
  induction l with
  | nil => simp
  | cons a l ih =>
    cases hfa : f a <;>
      simp [List.filterMap_cons, hfa, List.countP_cons] <;>
      omega

/-- C5: the reconstruction behind "Continue last session" returns the
snapshot's words in snapshot order with vanished ids dropped, clamps the
cursor into the bounds of the reconstructed list, offers nothing when
the reconstruction is empty, and against a pool in which exactly one
snapshot id is missing the reconstructed list is one shorter than the
snapshot. -/
theorem resumableSession_reconstruction (s : SavedSession) (pool : List Word) :
    (s.wordIds.filterMap (wordMapGet pool) = [] →
      resumableSession (some s) pool = none) ∧
    (∀ rs, resumableSession (some s) pool = some rs →
      rs.words = s.wordIds.filterMap (wordMapGet pool) ∧
      rs.words ≠ [] ∧
      rs.currentIndex < rs.words.length ∧
      rs.cardsLeft = rs.words.length - rs.currentIndex) ∧
    (s.wordIds.countP (fun id => (wordMapGet pool id).isNone) = 1 →
      (s.wordIds.filterMap (wordMapGet pool)).length = s.wordIds.length - 1) ∧
    resumableSession none pool = none := by
  refine ⟨?_, ?_, ?_, rfl⟩
  · intro hempty
    unfold resumableSession
    by_cases hids : s.wordIds.isEmpty
    · simp [hids]
    · simp [hids, hempty]
  · intro rs hrs
    unfold resumableSession at hrs
    by_cases hids : s.wordIds.isEmpty
    · simp [hids] at hrs
    · simp only [hids, if_false, Bool.false_eq_true] at hrs
      by_cases hord : (s.wordIds.filterMap (wordMapGet pool)).isEmpty
      · simp [hord] at hrs
      · simp only [hord, if_false, Bool.false_eq_true, Option.some_inj] at hrs
        have hne2 : s.wordIds.filterMap (wordMapGet pool) ≠ [] := by
          intro hnil
          exact hord (by simp [hnil])
        have hlen : 0 < (s.wordIds.filterMap (wordMapGet pool)).length :=
          List.length_pos.mpr hne2
        subst hrs
        refine ⟨rfl, ?_, ?_, rfl⟩
        · intro hnil
          exact hne2 hnil
        · rcases min_cases (max 0 s.currentIndex)
            (((s.wordIds.filterMap (wordMapGet pool)).length : Int) - 1) with
            ⟨hmin, hle⟩ | ⟨hmin, hlt⟩ <;>
            rcases max_cases 0 s.currentIndex with ⟨hmax, _⟩ | ⟨hmax, _⟩ <;>
            simp only [hmin, hmax] <;>
            omega
  · intro hone
    have h := length_filterMap_add_countP (wordMapGet pool) s.wordIds
    omega

/-- A live pool for the resume witness: the snapshot ids are
"a", "b", "c" but only "a" and "c" are still present. -/
def poolEx : List Word :=
  [{ sampleWord with id := "a" }, { sampleWord with id := "c" }]

/-- A saved snapshot whose cursor 5 is out of bounds for the
reconstructed two-word list. -/
def savedEx : SavedSession :=
  { wordIds := ["a", "b", "c"]
    currentIndex := 5
    filterType := FilterType.all
    dateRange := 30
    savedAt := "2024-01-02"
    knownCount := 1
    problemCount := 1 }

/-- Witness for C5: the reconstruction theorem applied to the concrete
snapshot against the pool missing id "b": two words survive (one less
than the snapshot's three) and the cursor is clamped below 2. -/
theorem resumableSession_reconstruction_witness :
    (savedEx.wordIds.filterMap (wordMapGet poolEx)).length = savedEx.wordIds.length - 1 ∧
    ({ words := savedEx.wordIds.filterMap (wordMapGet poolEx)
       currentIndex := 1
       cardsLeft := 1
       knownCount := 1
       problemCount := 1 } : ResumableSession).currentIndex
      < ({ words := savedEx.wordIds.filterMap (wordMapGet poolEx)
           currentIndex := 1
           cardsLeft := 1
           knownCount := 1
           problemCount := 1 } : ResumableSession).words.length := by
  have h := resumableSession_reconstruction savedEx poolEx
  exact ⟨h.2.2.1 (by decide), (h.2.1 _ (by decide)).2.2.1⟩

end MyVocab
